import Mathlib

/-!
Verification of the weather-analysis repository: a shallow embedding of
`data_processing.py` (class `WeatherDataProcessor` and its pandas-based
methods) and `utils.py` (`cache_decorator`), together with theorems that
settle the specification claims.

Numeric values are modelled exactly: temperatures as rationals, and the
Pearson correlation (which divides by a square root) over the reals.
A pandas `NaN`/missing cell is `Option.none`; a raised `ValueError` is an
`Except.error`.
-/

namespace Weather

/-- The only exception kind the processor's code paths can raise:
pandas raises `ValueError` for a negative rolling window. -/
inductive PError where
  | valueError : PError
deriving DecidableEq, Repr

/-- A row of the input DataFrame: (timestamp of the date index, temperature).
The spec's input boundary is a date-indexed table with one value column. -/
abbrev WRow := Nat × ℚ

/-- The input DataFrame `self.data`: an ordered list of rows. -/
abbrev WTable := List WRow

/-- The date index of the table. -/
def tsIndex (t : WTable) : List Nat := t.map Prod.fst

/-- The `temperature` column of the table. -/
def tempValues (t : WTable) : List ℚ := t.map Prod.snd

/-- pandas `Series.shift(k)` read at position `i`: the original value at
position `i - k` when that position exists, `NaN` (`none`) otherwise. -/
def shiftVal (k : ℤ) (vs : List ℚ) (i : ℕ) : Option ℚ :=
  if 0 ≤ (i : ℤ) - k ∧ (i : ℤ) - k < (vs.length : ℤ) then
    some (vs.getD ((i : ℤ) - k).toNat 0)
  else none

/-- pandas `Series.rolling(window=w).mean()` (default `min_periods = w`):
position `i` carries the mean of the `w` values ending at `i` when at least
`w` values are available (and `w ≥ 1`), `NaN` otherwise.  A window of `0`
passes pandas validation and yields an all-`NaN` column. -/
def rollingMean (w : ℕ) (vs : List ℚ) : List (Option ℚ) :=
  (List.range vs.length).map fun i =>
    if 1 ≤ w ∧ w ≤ i + 1 then
      some (((List.range w).map fun j => vs.getD (i + 1 - w + j) 0).sum / (w : ℚ))
    else none

/-- `WeatherDataProcessor.moving_average(window)`:
`self.data['temperature'].rolling(window=window).mean()`.
pandas validates the window (`ValueError` for a negative integer window);
otherwise the rolling mean is returned. -/
def moving_average (t : WTable) (w : ℤ) : Except PError (List (Option ℚ)) :=
  if w < 0 then .error .valueError
  else .ok (rollingMean w.toNat (tempValues t))

/-- `WeatherDataProcessor.differential()`: `self.data['temperature'].diff()`,
i.e. `value[i] - value[i-1]` with `NaN` at position `0`. -/
def diffValues (vs : List ℚ) : List (Option ℚ) :=
  (List.range vs.length).map fun i =>
    if 1 ≤ i then some (vs.getD i 0 - vs.getD (i - 1) 0) else none

/-- The `differential` method never raises: it always returns the diff column. -/
def differentialM (t : WTable) : Except PError (List (Option ℚ)) :=
  .ok (diffValues (tempValues t))

/-- Mean of a list of rationals (`0` on the empty list, whose value is never
used: correlations guard on a zero denominator first). -/
def listMean (l : List ℚ) : ℚ := l.sum / (l.length : ℚ)

/-- Centered sum of squares `Σ (x - mean)²`. -/
def ssq (l : List ℚ) : ℚ := (l.map fun x => (x - listMean l) ^ 2).sum

/-- Centered cross sum `Σ (x - mean xs) * (y - mean ys)` over paired values. -/
def sprod (xs ys : List ℚ) : ℚ :=
  ((xs.zip ys).map fun p => (p.1 - listMean xs) * (p.2 - listMean ys)).sum

/-- `Series.corr` (Pearson, as computed by `np.corrcoef` on the paired
non-`NaN` values): `Σ(x-x̄)(y-ȳ) / √(Σ(x-x̄)² · Σ(y-ȳ)²)`, and `NaN` when the
denominator vanishes (fewer than two pairs, or a zero-variance side). -/
noncomputable def pearson (xs ys : List ℚ) : Option ℝ :=
  if ssq xs * ssq ys = 0 then none
  else some ((sprod xs ys : ℝ) / Real.sqrt ((ssq xs : ℝ) * (ssq ys : ℝ)))

/-- The pairs over which `autocorr(lag)` correlates: position `i` of the
series paired with position `i` of the shifted copy, keeping exactly the
positions where the shifted copy is defined. -/
def autocorrPairs (vs : List ℚ) (lag : ℤ) : List (ℚ × ℚ) :=
  (List.range vs.length).filterMap fun i =>
    (shiftVal lag vs i).map fun a => (vs.getD i 0, a)

/-- `WeatherDataProcessor.autocorrelation(lag)`:
`self.data['temperature'].autocorr(lag=lag)`, which pandas computes as
`corr(series, series.shift(lag))`. -/
noncomputable def autocorrelation (t : WTable) (lag : ℤ) : Option ℝ :=
  pearson ((autocorrPairs (tempValues t) lag).map Prod.fst)
    ((autocorrPairs (tempValues t) lag).map Prod.snd)

/-- The `autocorrelation` method never raises for an integer lag: pandas
performs no range validation and returns `NaN` when there is no overlap. -/
noncomputable def autocorrelationM (t : WTable) (lag : ℤ) : Except PError (Option ℝ) :=
  .ok (autocorrelation t lag)

/-- `shift(1) < x` elementwise, with pandas `NaN` comparisons being `False`. -/
def optLt (o : Option ℚ) (x : ℚ) : Bool :=
  match o with
  | none => false
  | some a => decide (a < x)

/-- `shift(1) > x` elementwise, with pandas `NaN` comparisons being `False`. -/
def optGt (o : Option ℚ) (x : ℚ) : Bool :=
  match o with
  | none => false
  | some a => decide (x < a)

/-- `WeatherDataProcessor.find_extremes()`: boolean masks
`shift(1) < s & shift(-1) < s` (maxima) and `shift(1) > s & shift(-1) > s`
(minima) select rows of the temperature series; the results are sparse
series keeping the selected rows' timestamps and values. -/
def find_extremes (t : WTable) : WTable × WTable :=
  ((List.range t.length).filterMap fun i =>
      if optLt (shiftVal 1 (tempValues t) i) ((tempValues t).getD i 0) &&
          optLt (shiftVal (-1) (tempValues t) i) ((tempValues t).getD i 0)
      then some (t.getD i (0, 0)) else none,
   (List.range t.length).filterMap fun i =>
      if optGt (shiftVal 1 (tempValues t) i) ((tempValues t).getD i 0) &&
          optGt (shiftVal (-1) (tempValues t) i) ((tempValues t).getD i 0)
      then some (t.getD i (0, 0)) else none)

/-- The `find_extremes` method never raises. -/
def find_extremesM (t : WTable) : Except PError (WTable × WTable) :=
  .ok (find_extremes t)

/-- Label-based lookup of a timestamp in a sparse series (the index is
assumed unique, as the spec's data model requires). -/
def lookupTs (ts : Nat) (s : WTable) : Option ℚ :=
  (s.find? fun p => p.1 == ts).map Prod.snd

/-- Assigning a sparse series into a DataFrame column: pandas aligns by
index label, leaving `NaN` where the sparse series has no entry. -/
def realign (idx : List Nat) (s : WTable) : List (Option ℚ) :=
  idx.map fun ts => lookupTs ts s

/-- The DataFrame built by `process_data`: the shared date index and the six
columns the method assigns. -/
structure ProcessResult where
  index : List Nat
  temperature : List ℚ
  moving_average : List (Option ℚ)
  differential : List (Option ℚ)
  autocorrelation : List (Option ℝ)
  maxima : List (Option ℚ)
  minima : List (Option ℚ)

/-- `WeatherDataProcessor.process_data()`: builds the result DataFrame on the
input index with the temperature column, `moving_average(window=7)`,
`differential()`, the autocorrelation value for every lag `0..n-1` (one per
row position, via `autocorrelation_generator`), and the `find_extremes`
series re-aligned to the full index. -/
noncomputable def process_data (t : WTable) : Except PError ProcessResult :=
  match moving_average t 7 with
  | .error e => .error e
  | .ok ma =>
      .ok { index := tsIndex t
            temperature := tempValues t
            moving_average := ma
            differential := diffValues (tempValues t)
            autocorrelation := (List.range t.length).map fun i : ℕ => autocorrelation t (i : ℤ)
            maxima := realign (tsIndex t) (find_extremes t).1
            minima := realign (tsIndex t) (find_extremes t).2 }

/-! ### The memoizing call cache (`utils.cache_decorator`) -/

/-- The private store of one `cache_decorator` closure: an association of
argument keys to previously computed results (a Python `dict`; new entries
are added in front, and the guard `if key not in cache` means an existing
binding is never overwritten). -/
abbrev Cache (K V : Type) := List (K × V)

/-- `key in cache` / `cache[key]`: the stored value for a key, if any. -/
def cacheFind {K V : Type} [DecidableEq K] (c : Cache K V) (k : K) : Option V :=
  match c with
  | [] => none
  | (k₂, v) :: rest => if k₂ = k then some v else cacheFind rest k

/-- Outcome of one pass through the decorator's `wrapper`: the returned
value, the cache afterwards, and whether the wrapped function was executed. -/
structure CallResult (K V : Type) where
  result : V
  cache : Cache K V
  executed : Bool
deriving DecidableEq, Repr

/-- `wrapper(*args, **kwargs)` for a wrapped function that returns normally:
if the key is cached, return the stored value; otherwise execute `func`,
store the result under the key, and return it. -/
def cachedCall {K V : Type} [DecidableEq K] (f : K → V) (c : Cache K V) (k : K) :
    CallResult K V :=
  match cacheFind c k with
  | some v => ⟨v, c, false⟩
  | none => ⟨f k, (k, f k) :: c, true⟩

/-- Outcome of one pass through `wrapper` for a wrapped function that may
raise: the returned value or the propagated exception, the cache afterwards,
and whether the wrapped function was executed. -/
structure CallResultE (E K V : Type) where
  result : Except E V
  cache : Cache K V
  executed : Bool

/-- `wrapper(*args, **kwargs)` for a wrapped function that may raise.  In
`cache[key] = func(*args, **kwargs)` the right-hand side is evaluated first,
so an exception propagates before any store happens and the cache is left
unchanged. -/
def cachedCallE {E K V : Type} [DecidableEq K] (f : K → Except E V) (c : Cache K V)
    (k : K) : CallResultE E K V :=
  match cacheFind c k with
  | some v => ⟨.ok v, c, false⟩
  | none =>
      match f k with
      | .ok v => ⟨.ok v, (k, v) :: c, true⟩
      | .error e => ⟨.error e, c, true⟩

/-- The cache key built by `wrapper`: `(args, tuple(kwargs.items()))`.
Positional arguments are an ordered tuple; keyword items are tupled in the
order the call site passed them (Python keeps `**kwargs` insertion-ordered).
Argument values are modelled as integers; the first positional argument of a
method call is `self`, here the processor instance's identity. -/
structure PyKey where
  args : List ℤ
  kwargs : List (String × ℤ)
deriving DecidableEq, Repr

/-- The processor instance a method-call key belongs to: its first
positional argument (`self`). -/
def instOf (k : PyKey) : Option ℤ := k.args.head?

/-! ### Definitions taken from the specification's words (for comparison
with the code's behaviour) -/

/-- Modelled from the spec: "Pearson correlation coefficient between the
series and itself shifted by `lag` positions, computed over the overlapping
region only, using sample mean/variance of the full series (not just the
overlap) — i.e., standard lag-autocorrelation":
`Σ_{i<n-lag} (S_i - μ)(S_{i+lag} - μ) / Σ_i (S_i - μ)²` with the full-series
mean `μ`, and missing on a zero-variance series. -/
noncomputable def spec_autocorrelation (t : WTable) (lag : ℕ) : Option ℝ :=
  if ssq (tempValues t) = 0 then none
  else some
    (((((List.range ((tempValues t).length - lag)).map
        fun i => ((tempValues t).getD i 0 - listMean (tempValues t)) *
          ((tempValues t).getD (i + lag) 0 - listMean (tempValues t))).sum : ℚ) : ℝ) /
      ((ssq (tempValues t) : ℚ) : ℝ))

/-- Modelled from the spec: the local maxima of `find_extremes`, described
by index positions — a position `i` with `1 ≤ i ≤ n-2` whose value is
strictly greater than both neighbours, kept with its timestamp and value. -/
def localMaxSpec (t : WTable) : WTable :=
  (List.range t.length).filterMap fun i =>
    if 0 < i ∧ i + 1 < t.length ∧
        (tempValues t).getD (i - 1) 0 < (tempValues t).getD i 0 ∧
        (tempValues t).getD (i + 1) 0 < (tempValues t).getD i 0
    then some (t.getD i (0, 0)) else none

/-- Modelled from the spec: the local minima of `find_extremes`, described
by index positions — a position `i` with `1 ≤ i ≤ n-2` whose value is
strictly less than both neighbours, kept with its timestamp and value. -/
def localMinSpec (t : WTable) : WTable :=
  (List.range t.length).filterMap fun i =>
    if 0 < i ∧ i + 1 < t.length ∧
        (tempValues t).getD i 0 < (tempValues t).getD (i - 1) 0 ∧
        (tempValues t).getD i 0 < (tempValues t).getD (i + 1) 0
    then some (t.getD i (0, 0)) else none

/-! ### Helper lemmas -/

/-- A successful cache lookup comes from an entry actually in the store. -/
theorem cacheFind_mem {K V : Type} [DecidableEq K] {c : Cache K V} {k : K} {v : V}
    (h : cacheFind c k = some v) : (k, v) ∈ c := by
  induction c with
  | nil => simp [cacheFind] at h
  | cons p rest ih =>
      rw [cacheFind] at h
      by_cases hk : p.1 = k
      · rw [if_pos hk] at h
        obtain ⟨p1, p2⟩ := p
        injection h with h2
        subst h2
        cases hk
        exact List.mem_cons_self _ _
      · rw [if_neg hk] at h
        exact List.mem_cons_of_mem _ (ih h)

/-- `shift(1)` at an in-range position: the previous value, `NaN` at `0`. -/
theorem shiftVal_one (vs : List ℚ) (i : ℕ) (hi : i < vs.length) :
    shiftVal 1 vs i = if 0 < i then some (vs.getD (i - 1) 0) else none := by
  unfold shiftVal
  by_cases h0 : 0 < i
  · rw [if_pos ?hc, if_pos h0]
    case hc => constructor <;> omega
    have h2 : ((i : ℤ) - 1).toNat = i - 1 := by omega
    rw [h2]
  · rw [if_neg ?hn, if_neg h0]
    case hn => intro hc; omega

/-- `shift(-1)` at a position: the next value, `NaN` at the last position. -/
theorem shiftVal_neg_one (vs : List ℚ) (i : ℕ) :
    shiftVal (-1) vs i = if i + 1 < vs.length then some (vs.getD (i + 1) 0) else none := by
  unfold shiftVal
  by_cases h1 : i + 1 < vs.length
  · rw [if_pos ?hc, if_pos h1]
    case hc => constructor <;> omega
    have h2 : ((i : ℤ) - (-1)).toNat = i + 1 := by omega
    rw [h2]
  · rw [if_neg ?hn, if_neg h1]
    case hn => intro hc; omega

/-- The maxima mask `shift(1) < s & shift(-1) < s` holds at an in-range
position exactly when the position is interior and strictly above both
neighbours. -/
theorem maxMask_iff (vs : List ℚ) (i : ℕ) (hi : i < vs.length) (x : ℚ) :
    (optLt (shiftVal 1 vs i) x && optLt (shiftVal (-1) vs i) x) = true ↔
      (0 < i ∧ i + 1 < vs.length ∧ vs.getD (i - 1) 0 < x ∧ vs.getD (i + 1) 0 < x) := by
  rw [shiftVal_one vs i hi, shiftVal_neg_one]
  by_cases h0 : 0 < i <;> by_cases h1 : i + 1 < vs.length <;>
    simp [h0, h1, optLt]

/-- The minima mask `shift(1) > s & shift(-1) > s` holds at an in-range
position exactly when the position is interior and strictly below both
neighbours. -/
theorem minMask_iff (vs : List ℚ) (i : ℕ) (hi : i < vs.length) (x : ℚ) :
    (optGt (shiftVal 1 vs i) x && optGt (shiftVal (-1) vs i) x) = true ↔
      (0 < i ∧ i + 1 < vs.length ∧ x < vs.getD (i - 1) 0 ∧ x < vs.getD (i + 1) 0) := by
  rw [shiftVal_one vs i hi, shiftVal_neg_one]
  by_cases h0 : 0 < i <;> by_cases h1 : i + 1 < vs.length <;>
    simp [h0, h1, optGt]

/-! ### Claims about the memoizing call cache -/

/-- C5: invoking a cached operation twice with identical arguments on the
same cache executes the underlying computation exactly once (the first call
executes, the second is a cache hit), and both invocations return the same
result, namely the wrapped function's value. -/
theorem cache_single_execution {K V : Type} [DecidableEq K] (f : K → V)
    (c : Cache K V) (k : K) (h : cacheFind c k = none) :
    (cachedCall f c k).executed = true ∧
    (cachedCall f (cachedCall f c k).cache k).executed = false ∧
    (cachedCall f (cachedCall f c k).cache k).result = (cachedCall f c k).result ∧
    (cachedCall f c k).result = f k := by
  simp [cachedCall, h, cacheFind]

/-- Witness for C5 at a concrete wrapped function, empty cache and key. -/
theorem cache_single_execution_witness :
    cacheFind ([] : Cache ℕ ℕ) 0 = none ∧
    ((cachedCall (fun n => n + 1) ([] : Cache ℕ ℕ) 0).executed = true ∧
     (cachedCall (fun n => n + 1)
        (cachedCall (fun n => n + 1) ([] : Cache ℕ ℕ) 0).cache 0).executed = false ∧
     (cachedCall (fun n => n + 1)
        (cachedCall (fun n => n + 1) ([] : Cache ℕ ℕ) 0).cache 0).result =
       (cachedCall (fun n => n + 1) ([] : Cache ℕ ℕ) 0).result ∧
     (cachedCall (fun n => n + 1) ([] : Cache ℕ ℕ) 0).result = 1) :=
  ⟨rfl, cache_single_execution (fun n => n + 1) [] 0 rfl⟩

/-- C6: when the wrapped operation raises, the `wrapper` stores nothing (the
cache is returned unchanged), the exception propagates to the caller, and a
subsequent call with the identical arguments executes the operation again. -/
theorem cache_error_not_stored {E K V : Type} [DecidableEq K] (f : K → Except E V)
    (c : Cache K V) (k : K) (e : E) (hf : f k = .error e) (h : cacheFind c k = none) :
    (cachedCallE f c k).result = .error e ∧
    (cachedCallE f c k).cache = c ∧
    (cachedCallE f c k).executed = true ∧
    (cachedCallE f (cachedCallE f c k).cache k).executed = true := by
  simp [cachedCallE, h, hf]

/-- Witness for C6 at a concrete always-failing function, empty cache and key. -/
theorem cache_error_not_stored_witness :
    (fun _ : ℕ => (Except.error 7 : Except ℕ ℕ)) 0 = .error 7 ∧
    cacheFind ([] : Cache ℕ ℕ) 0 = none ∧
    ((cachedCallE (fun _ : ℕ => (Except.error 7 : Except ℕ ℕ)) [] 0).result = .error 7 ∧
     (cachedCallE (fun _ : ℕ => (Except.error 7 : Except ℕ ℕ)) [] 0).cache = [] ∧
     (cachedCallE (fun _ : ℕ => (Except.error 7 : Except ℕ ℕ)) [] 0).executed = true ∧
     (cachedCallE (fun _ : ℕ => (Except.error 7 : Except ℕ ℕ))
        (cachedCallE (fun _ : ℕ => (Except.error 7 : Except ℕ ℕ)) [] 0).cache 0).executed =
       true) :=
  ⟨rfl, rfl, cache_error_not_stored _ [] 0 7 rfl rfl⟩

/-- C7 counterexample: the two kwargs lists `a=1, b=2` and `b=2, a=1` are
the same name→value mapping (a permutation of each other), yet the built
keys differ, and the second call misses the entry stored by the first call
and executes the wrapped function again — refuting the claim that keyword
order does not matter for key equality. -/
theorem kwargs_order_counterexample :
    (PyKey.mk [] [("a", 1), ("b", 2)]).kwargs.Perm
      (PyKey.mk [] [("b", 2), ("a", 1)]).kwargs ∧
    PyKey.mk [] [("a", 1), ("b", 2)] ≠ PyKey.mk [] [("b", 2), ("a", 1)] ∧
    (cachedCall (fun _ => (0 : ℤ))
      (cachedCall (fun _ => (0 : ℤ)) [] (PyKey.mk [] [("a", 1), ("b", 2)])).cache
      (PyKey.mk [] [("b", 2), ("a", 1)])).executed = true :=
  ⟨List.Perm.swap _ _ _, by decide, by decide⟩

/-- C7 (corrected): cache keys compare equal exactly when the positional
arguments are equal in order AND the keyword items are equal as ordered
sequences (the order the call site passed them); a repeat call is a cache
hit precisely in that case. -/
theorem cache_key_equality {V : Type} (f : PyKey → V) (k₁ k₂ : PyKey) :
    (cachedCall f (cachedCall f [] k₁).cache k₂).executed = false ↔
      (k₁.args = k₂.args ∧ k₁.kwargs = k₂.kwargs) := by
  cases k₁ with
  | mk a₁ kw₁ =>
      cases k₂ with
      | mk a₂ kw₂ =>
          by_cases h : a₁ = a₂ ∧ kw₁ = kw₂
          · obtain ⟨h1, h2⟩ := h
            subst h1
            subst h2
            simp [cachedCall, cacheFind]
          · have hne : PyKey.mk a₁ kw₁ ≠ PyKey.mk a₂ kw₂ := by
              intro hk
              injection hk with hA hK
              exact h ⟨hA, hK⟩
            simp [cachedCall, cacheFind, hne, h]

/-- C10: (a) one pass through the cache never evicts, expires or overwrites
an existing entry — every binding present before a call is present with the
same value afterwards; (b) a call whose key belongs to one processor
instance (its `self` argument) is never satisfied by entries created
through a different instance: if no stored key has this instance as its
`self`, the call misses the cache and executes. -/
theorem cache_persistence_isolation {V : Type} (f : PyKey → V) (c : Cache PyKey V)
    (k : PyKey) :
    (∀ q v, cacheFind c q = some v → cacheFind (cachedCall f c k).cache q = some v) ∧
    (∀ j, instOf k = some j → (∀ p ∈ c, instOf p.1 ≠ some j) →
      (cachedCall f c k).executed = true) := by
  constructor
  · intro q v hq
    unfold cachedCall
    cases hfind : cacheFind c k with
    | some w => simpa [hfind] using hq
    | none =>
        have hkq : k ≠ q := by
          intro he
          rw [he] at hfind
          rw [hfind] at hq
          exact Option.noConfusion hq
        simp only [hfind]
        rw [cacheFind, if_neg hkq]
        exact hq
  · intro j hj hc
    unfold cachedCall
    cases hfind : cacheFind c k with
    | some w =>
        exfalso
        have hmem := cacheFind_mem hfind
        have := hc (k, w) hmem
        exact this hj
    | none => simp [hfind]

/-- Witness for C10 on a concrete store holding one entry of instance `1`
and a call by instance `2`. -/
theorem cache_persistence_isolation_witness :
    cacheFind [(PyKey.mk [1] [], (5 : ℤ))] (PyKey.mk [1] []) = some 5 ∧
    instOf (PyKey.mk [2] []) = some 2 ∧
    cacheFind (cachedCall (fun _ => (0 : ℤ)) [(PyKey.mk [1] [], (5 : ℤ))]
      (PyKey.mk [2] [])).cache (PyKey.mk [1] []) = some 5 ∧
    (cachedCall (fun _ => (0 : ℤ)) [(PyKey.mk [1] [], (5 : ℤ))]
      (PyKey.mk [2] [])).executed = true :=
  ⟨by decide, by decide,
   (cache_persistence_isolation (fun _ => (0 : ℤ)) [(PyKey.mk [1] [], (5 : ℤ))]
      (PyKey.mk [2] [])).1 (PyKey.mk [1] []) 5 (by decide),
   (cache_persistence_isolation (fun _ => (0 : ℤ)) [(PyKey.mk [1] [], (5 : ℤ))]
      (PyKey.mk [2] [])).2 2 (by decide) (by decide)⟩

/-! ### Claims about find_extremes -/

/-- C9: `find_extremes` classifies exactly the interior positions
(`1 ≤ i ≤ n-2`) whose value is strictly greater (maxima) resp. strictly
less (minima) than both neighbours; the first and last positions and
positions with an equal neighbour never qualify, and the returned series
are sparse, holding only the matched rows with their timestamp and value. -/
theorem find_extremes_spec (t : WTable) :
    find_extremes t = (localMaxSpec t, localMinSpec t) := by
  have hv : (tempValues t).length = t.length := List.length_map _ _
  unfold find_extremes localMaxSpec localMinSpec
  simp only [Prod.mk.injEq]
  constructor
  · apply List.filterMap_congr
    intro i hi
    have hi2 : i < (tempValues t).length := by
      rw [hv]
      exact List.mem_range.mp hi
    refine if_congr ?_ rfl rfl
    rw [maxMask_iff _ _ hi2, hv]
  · apply List.filterMap_congr
    intro i hi
    have hi2 : i < (tempValues t).length := by
      rw [hv]
      exact List.mem_range.mp hi
    refine if_congr ?_ rfl rfl
    rw [minMask_iff _ _ hi2, hv]

/-! ### Degenerate-input lemmas for the correlation -/

/-- The mean of a one-element series is its value. -/
theorem listMean_single (v : ℚ) : listMean [v] = v := by
  simp [listMean]

/-- A one-element series has zero centered sum of squares. -/
theorem ssq_single (v : ℚ) : ssq [v] = 0 := by
  simp [ssq, listMean_single]

/-- Pearson on one-element series is `NaN` (zero variance). -/
theorem pearson_single (v w : ℚ) : pearson [v] [w] = none := by
  simp [pearson, ssq_single]

/-- Pearson on empty series is `NaN`. -/
theorem pearson_nil : pearson [] [] = none := by
  simp [pearson, ssq, listMean]

/-- A lag at or beyond the series length leaves no overlap at all. -/
theorem autocorrPairs_out_of_range (vs : List ℚ) (lag : ℤ)
    (h : (vs.length : ℤ) ≤ lag) : autocorrPairs vs lag = [] := by
  unfold autocorrPairs
  rw [List.filterMap_eq_nil_iff]
  intro i hi
  have hi2 : i < vs.length := List.mem_range.mp hi
  have hc : ¬(0 ≤ (i : ℤ) - lag ∧ (i : ℤ) - lag < (vs.length : ℤ)) := by
    intro hand
    omega
  rw [shiftVal, if_neg hc]
  rfl

/-- `autocorr` with a lag at or beyond the series length is `NaN`. -/
theorem autocorrelation_out_of_range (t : WTable) (lag : ℤ)
    (h : (t.length : ℤ) ≤ lag) : autocorrelation t lag = none := by
  unfold autocorrelation
  rw [autocorrPairs_out_of_range _ _ (by simpa [tempValues] using h)]
  simpa using pearson_nil

/-- The overlap pairs of a one-element series: only lag `0` pairs the value
with itself. -/
theorem autocorrPairs_single (v : ℚ) (lag : ℤ) :
    autocorrPairs [v] lag = if lag = 0 then [(v, v)] else [] := by
  unfold autocorrPairs
  by_cases hl : lag = 0
  · subst hl
    simp [shiftVal, List.range_succ]
  · rw [if_neg hl]
    have hc : ¬(0 ≤ ((0 : ℕ) : ℤ) - lag ∧ ((0 : ℕ) : ℤ) - lag < (([v] : List ℚ).length : ℤ)) := by
      simp only [List.length_cons, List.length_nil]
      omega
    simp [shiftVal, List.range_succ]
    omega

/-- `autocorr` on a one-row series is `NaN` for every lag. -/
theorem autocorrelation_single (p : WRow) (lag : ℤ) : autocorrelation [p] lag = none := by
  unfold autocorrelation
  have h : tempValues [p] = [p.2] := rfl
  rw [h, autocorrPairs_single]
  by_cases hl : lag = 0
  · rw [if_pos hl]
    simpa using pearson_single p.2 p.2
  · rw [if_neg hl]
    simp [pearson, ssq]

/-- `autocorr` on an empty series is `NaN` for every lag. -/
theorem autocorrelation_nil (lag : ℤ) : autocorrelation [] lag = none := by
  unfold autocorrelation
  have h : autocorrPairs (tempValues []) lag = [] := by
    simp [autocorrPairs, tempValues]
  rw [h]
  simpa using pearson_nil

/-! ### Claims about argument validation and short series -/

/-- C3 counterexample: on the three-row series `[1, 2, 4]`, a window of `0`
(which is `≤ 0`) does not raise — pandas accepts it and yields an
all-missing column — and a lag of `3` (`≥` the series length) does not
raise either: `autocorr` returns `NaN`.  This refutes the claim that these
calls fail with an `InvalidArgument` error. -/
theorem validation_counterexample :
    moving_average [(1, 1), (2, 2), (3, 4)] 0 = .ok [none, none, none] ∧
    autocorrelationM [(1, 1), (2, 2), (3, 4)] 3 = .ok none := by
  constructor
  · rfl
  · exact congrArg Except.ok
      (autocorrelation_out_of_range [(1, 1), (2, 2), (3, 4)] 3 (by decide))

/-- C3 (corrected): a negative window raises pandas' `ValueError`
(`InvalidArgument`); a window of exactly `0` passes pandas validation and
returns an all-missing column; and `autocorrelation` performs no lag
validation at all — a lag at or beyond the series length returns `NaN`
(missing) instead of an error. -/
theorem window_lag_validation (t : WTable) (w lag : ℤ)
    (hw : w < 0) (hlag : (t.length : ℤ) ≤ lag) :
    moving_average t w = .error .valueError ∧
    moving_average t 0 = .ok (List.replicate t.length none) ∧
    autocorrelationM t lag = .ok none := by
  refine ⟨by simp [moving_average, hw], ?_, ?_⟩
  · unfold moving_average
    rw [if_neg (by omega)]
    unfold rollingMean
    have hz : ((0 : ℤ)).toNat = 0 := rfl
    rw [hz]
    simp [List.map_const']
    exact List.length_map _ _
  · exact congrArg Except.ok (autocorrelation_out_of_range t lag hlag)

/-- Witness for C3 (corrected) at the series `[1, 2, 4]`, window `-1`,
lag `5`. -/
theorem window_lag_validation_witness :
    (-1 : ℤ) < 0 ∧ (([(1, 1), (2, 2), (3, 4)] : WTable).length : ℤ) ≤ 5 ∧
    (moving_average [(1, 1), (2, 2), (3, 4)] (-1) = .error .valueError ∧
     moving_average [(1, 1), (2, 2), (3, 4)] 0 = .ok (List.replicate 3 none) ∧
     autocorrelationM [(1, 1), (2, 2), (3, 4)] 5 = .ok none) :=
  ⟨by decide, by decide,
   window_lag_validation [(1, 1), (2, 2), (3, 4)] (-1) 5 (by decide) (by decide)⟩

/-- C4 counterexample: on an empty series and on a one-row series every
operation returns a result — `process_data` succeeds, `differential`
returns an all-missing column, `find_extremes` returns two empty series,
`autocorrelation` returns `NaN` — refuting the claim that they fail with an
`InsufficientData` error. -/
theorem short_series_counterexample :
    (process_data ([] : WTable)).isOk = true ∧
    (process_data [((0 : ℕ), (5 : ℚ))]).isOk = true ∧
    differentialM [((0 : ℕ), (5 : ℚ))] = .ok [none] ∧
    find_extremesM [((0 : ℕ), (5 : ℚ))] = .ok ([], []) ∧
    autocorrelationM [((0 : ℕ), (5 : ℚ))] 0 = .ok none := by
  refine ⟨rfl, rfl, rfl, rfl, ?_⟩
  exact congrArg Except.ok (autocorrelation_single ((0 : ℕ), (5 : ℚ)) 0)

/-- C4 (corrected): on an empty or one-row series no operation fails:
`process_data` returns a table, `differential` an all-missing column,
`find_extremes` two empty sparse series, and `autocorrelation` `NaN` for
every lag. -/
theorem short_series_no_error (t : WTable) (h : t.length ≤ 1) :
    (process_data t).isOk = true ∧
    differentialM t = .ok (List.replicate t.length none) ∧
    find_extremesM t = .ok ([], []) ∧
    ∀ lag : ℤ, autocorrelationM t lag = .ok none := by
  match t with
  | [] =>
      exact ⟨rfl, rfl, rfl, fun lag => congrArg Except.ok (autocorrelation_nil lag)⟩
  | [p] =>
      exact ⟨rfl, rfl, rfl, fun lag => congrArg Except.ok (autocorrelation_single p lag)⟩
  | p :: q :: rest =>
      simp at h

/-- Witness for C4 (corrected) at the one-row series `[(0, 5)]`. -/
theorem short_series_no_error_witness :
    ([((0 : ℕ), (5 : ℚ))] : WTable).length ≤ 1 ∧
    ((process_data [((0 : ℕ), (5 : ℚ))]).isOk = true ∧
     differentialM [((0 : ℕ), (5 : ℚ))] = .ok (List.replicate 1 none) ∧
     find_extremesM [((0 : ℕ), (5 : ℚ))] = .ok ([], []) ∧
     ∀ lag : ℤ, autocorrelationM [((0 : ℕ), (5 : ℚ))] lag = .ok none) :=
  ⟨by decide, short_series_no_error [((0 : ℕ), (5 : ℚ))] (by decide)⟩

/-! ### The overlap structure of autocorr -/

/-- For a non-negative lag, the overlap pairs are exactly the series with
its first `lag` positions dropped, zipped against the series truncated to
the overlap length. -/
theorem autocorrPairs_eq_zip (vs : List ℚ) (lag : ℕ) :
    autocorrPairs vs (lag : ℤ) = (vs.drop lag).zip (vs.take (vs.length - lag)) := by
  by_cases hle : lag ≤ vs.length
  · unfold autocorrPairs
    have hsplit : List.range vs.length =
        List.range lag ++ (List.range (vs.length - lag)).map (lag + ·) := by
      rw [← List.range_add]
      congr 1
      omega
    rw [hsplit, List.filterMap_append, List.filterMap_map]
    have h1 : (List.range lag).filterMap
        (fun i => (shiftVal (lag : ℤ) vs i).map fun a => (vs.getD i 0, a)) = [] := by
      rw [List.filterMap_eq_nil_iff]
      intro i hi
      have hi2 : i < lag := List.mem_range.mp hi
      rw [shiftVal, if_neg (by intro hand; omega)]
      rfl
    rw [h1, List.nil_append]
    have hfm : ∀ f : ℕ → ℚ × ℚ, ∀ l : List ℕ,
        l.filterMap (fun j => some (f j)) = l.map f := by
      intro f l
      induction l with
      | nil => rfl
      | cons a l2 ih => simp [List.filterMap_cons, ih]
    have h2 : ∀ j ∈ List.range (vs.length - lag),
        ((fun i => (shiftVal (lag : ℤ) vs i).map fun a => (vs.getD i 0, a)) ∘ (lag + ·)) j =
          some (vs.getD (lag + j) 0, vs.getD j 0) := by
      intro j hj
      have hj2 : j < vs.length - lag := List.mem_range.mp hj
      have hcond : 0 ≤ ((lag + j : ℕ) : ℤ) - (lag : ℤ) ∧
          ((lag + j : ℕ) : ℤ) - (lag : ℤ) < (vs.length : ℤ) := by
        constructor <;> omega
      have htn : (((lag + j : ℕ) : ℤ) - (lag : ℤ)).toNat = j := by omega
      simp only [Function.comp]
      rw [shiftVal, if_pos hcond, htn]
      rfl
    rw [List.filterMap_congr h2]
    rw [hfm (fun j => (vs.getD (lag + j) 0, vs.getD j 0))]
    apply List.ext_getElem
    · simp only [List.length_map, List.length_range, List.length_zip, List.length_drop,
        List.length_take]
      omega
    · intro i h1l h2l
      have hi : i < vs.length - lag := by simpa using h1l
      rw [List.getElem_map, List.getElem_range, List.getElem_zip]
      rw [List.getElem_drop, List.getElem_take]
      rw [List.getD_eq_getElem _ _ (show lag + i < vs.length by omega),
        List.getD_eq_getElem _ _ (show i < vs.length by omega)]
  · have h1 : autocorrPairs vs (lag : ℤ) = [] :=
      autocorrPairs_out_of_range vs _ (by omega)
    have h2 : vs.drop lag = [] := List.drop_eq_nil_of_le (by omega)
    have h3 : vs.length - lag = 0 := by omega
    rw [h1, h2, h3]
    rfl

/-- For a non-negative lag, `autocorr(lag)` is the plain Pearson
correlation between the overlap's two sides. -/
theorem autocorrelation_eq_overlap_pearson (t : WTable) (lag : ℕ) :
    autocorrelation t (lag : ℤ) =
      pearson ((tempValues t).drop lag)
        ((tempValues t).take ((tempValues t).length - lag)) := by
  unfold autocorrelation
  rw [autocorrPairs_eq_zip]
  have hlen : ((tempValues t).drop lag).length ≤
      ((tempValues t).take ((tempValues t).length - lag)).length := by
    simp only [List.length_drop, List.length_take]
    omega
  have hlen2 : ((tempValues t).take ((tempValues t).length - lag)).length ≤
      ((tempValues t).drop lag).length := by
    simp only [List.length_drop, List.length_take]
    omega
  rw [List.map_fst_zip _ _ hlen, List.map_snd_zip _ _ hlen2]

/-! ### Pearson on identical and constant series -/

/-- Zipping a list with itself and combining turns into a single map. -/
theorem zip_self_prod (m : ℚ) (xs : List ℚ) :
    ((xs.zip xs).map fun p => (p.1 - m) * (p.2 - m)).sum =
      (xs.map fun x => (x - m) ^ 2).sum := by
  induction xs with
  | nil => rfl
  | cons a l ih => simp [List.sum_cons, ih, pow_two]

/-- The cross sum of a series with itself is its centered sum of squares. -/
theorem sprod_self (xs : List ℚ) : sprod xs xs = ssq xs := by
  unfold sprod ssq
  exact zip_self_prod (listMean xs) xs

/-- A centered sum of squares is non-negative. -/
theorem ssq_nonneg (xs : List ℚ) : 0 ≤ ssq xs := by
  apply List.sum_nonneg
  intro x hx
  rw [List.mem_map] at hx
  obtain ⟨y, hy, rfl⟩ := hx
  positivity

/-- Pearson of a series with itself is exactly `1` when the variance is
non-zero. -/
theorem pearson_self (xs : List ℚ) (h : ssq xs ≠ 0) : pearson xs xs = some 1 := by
  unfold pearson
  rw [if_neg (mul_ne_zero h h), sprod_self]
  have hpos : (0 : ℝ) < ((ssq xs : ℚ) : ℝ) := by
    have h2 := lt_of_le_of_ne (ssq_nonneg xs) (Ne.symm h)
    exact_mod_cast h2
  rw [Real.sqrt_mul_self (le_of_lt hpos), div_self (ne_of_gt hpos)]

/-- In a list of non-negative rationals with zero sum, every element is zero. -/
theorem sum_nonneg_all_zero {l : List ℚ} (hpos : ∀ x ∈ l, 0 ≤ x) (h0 : l.sum = 0) :
    ∀ x ∈ l, x = 0 := by
  induction l with
  | nil =>
      intro x hx
      simp at hx
  | cons a l ih =>
      rw [List.sum_cons] at h0
      have ha : 0 ≤ a := hpos a (List.mem_cons_self a l)
      have hl : 0 ≤ l.sum := List.sum_nonneg fun x hx => hpos x (List.mem_cons_of_mem _ hx)
      intro x hx
      rcases List.mem_cons.mp hx with rfl | hmem
      · linarith
      · exact ih (fun y hy => hpos y (List.mem_cons_of_mem _ hy)) (by linarith) x hmem

/-- Zero variance forces every element to equal the mean. -/
theorem ssq_eq_zero_all_mean (xs : List ℚ) (h : ssq xs = 0) :
    ∀ x ∈ xs, x = listMean xs := by
  intro x hx
  have h2 := sum_nonneg_all_zero (l := xs.map fun y => (y - listMean xs) ^ 2)
    (by
      intro z hz
      rw [List.mem_map] at hz
      obtain ⟨y, hy, rfl⟩ := hz
      positivity) h
  have h3 : (x - listMean xs) ^ 2 = 0 := h2 _ (List.mem_map_of_mem _ hx)
  have h4 : x - listMean xs = 0 := by
    exact pow_eq_zero_iff (two_ne_zero) |>.mp h3
  linarith

/-- A series with two distinct elements has non-zero variance. -/
theorem ssq_ne_zero_of_two_ne (xs : List ℚ) (a b : ℚ) (ha : a ∈ xs) (hb : b ∈ xs)
    (hab : a ≠ b) : ssq xs ≠ 0 := by
  intro h0
  have h1 := ssq_eq_zero_all_mean xs h0
  exact hab ((h1 a ha).trans (h1 b hb).symm)

/-- A constant series has zero variance. -/
theorem ssq_of_const (xs : List ℚ) (c : ℚ) (h : ∀ x ∈ xs, x = c) : ssq xs = 0 := by
  cases xs with
  | nil => simp [ssq]
  | cons a l =>
      have hmean : listMean (a :: l) = c := by
        unfold listMean
        rw [List.sum_eq_card_nsmul _ c h, nsmul_eq_mul]
        have hne : (((a :: l).length : ℕ) : ℚ) ≠ 0 := by
          simp only [List.length_cons, Nat.cast_add, Nat.cast_one]
          positivity
        field_simp
      unfold ssq
      apply List.sum_eq_zero
      intro y hy
      rw [List.mem_map] at hy
      obtain ⟨x, hx, rfl⟩ := hy
      rw [h x hx, hmean]
      ring

/-- Pearson is `NaN` whenever the first side has zero variance. -/
theorem pearson_zero_left (xs ys : List ℚ) (h : ssq xs = 0) : pearson xs ys = none := by
  simp [pearson, h]

/-- `autocorr` of a constant series is `NaN` at every lag: the overlap's
first side is constant, so the correlation ratio is undefined. -/
theorem constant_series_autocorrelation (t : WTable) (c : ℚ)
    (h : ∀ x ∈ tempValues t, x = c) (lag : ℤ) : autocorrelation t lag = none := by
  unfold autocorrelation
  apply pearson_zero_left
  apply ssq_of_const _ c
  intro x hx
  rw [List.mem_map] at hx
  obtain ⟨p, hp, rfl⟩ := hx
  unfold autocorrPairs at hp
  rw [List.mem_filterMap] at hp
  obtain ⟨i, hi, hf⟩ := hp
  cases hs : shiftVal lag (tempValues t) i with
  | none =>
      rw [hs] at hf
      simp at hf
  | some a =>
      rw [hs] at hf
      have hf2 : ((tempValues t).getD i 0, a) = p := by
        have hmap : (some a).map (fun y => ((tempValues t).getD i 0, y)) =
            some ((tempValues t).getD i 0, a) := rfl
        rw [hmap] at hf
        exact Option.some.inj hf
      rw [← hf2]
      have hi2 : i < (tempValues t).length := List.mem_range.mp hi
      rw [List.getD_eq_getElem _ _ hi2]
      exact h _ (List.getElem_mem _)

/-! ### Claims about autocorrelation -/

/-- C2 (corrected): for `0 ≤ lag`, `autocorrelation(lag)` is the Pearson
correlation over the overlapping region computed with the overlap's own
sample means and variances (the plain Pearson coefficient between the
series minus its first `lag` values and the series truncated to the
overlap) — not with the mean/variance of the full series. -/
theorem autocorrelation_overlap_spec (t : WTable) (lag : ℕ) :
    autocorrelation t (lag : ℤ) =
      pearson ((tempValues t).drop lag)
        ((tempValues t).take ((tempValues t).length - lag)) :=
  autocorrelation_eq_overlap_pearson t lag

/-- C2 counterexample: on the series `[1, 2, 4]` with lag `1`, the code's
`autocorr` (Pearson over the overlap with overlap statistics) yields `1`,
while the spec's formula (full-series mean and variance) yields `-1/42`. -/
theorem autocorrelation_full_mean_counterexample :
    autocorrelation [(1, 1), (2, 2), (3, 4)] 1 ≠
      spec_autocorrelation [(1, 1), (2, 2), (3, 4)] 1 := by
  have hcode : autocorrelation [(1, 1), (2, 2), (3, 4)] 1 = some 1 := by
    have h1 : ((1 : ℕ) : ℤ) = (1 : ℤ) := rfl
    have h2 := autocorrelation_eq_overlap_pearson [(1, 1), (2, 2), (3, 4)] 1
    rw [h1] at h2
    rw [h2]
    show pearson [2, 4] [1, 2] = some 1
    have hssx : ssq [2, 4] = 2 := by
      norm_num [ssq, listMean, List.sum_cons]
    have hssy : ssq [1, 2] = 1 / 2 := by
      norm_num [ssq, listMean, List.sum_cons]
    have hsp : sprod [2, 4] [1, 2] = 1 := by
      norm_num [sprod, listMean, List.sum_cons]
    unfold pearson
    rw [hssx, hssy, hsp, if_neg (by norm_num)]
    have hr : ((2 : ℚ) : ℝ) * (((1 : ℚ) / 2 : ℚ) : ℝ) = 1 := by
      push_cast
      norm_num
    rw [hr, Real.sqrt_one]
    norm_num
  have hspec : spec_autocorrelation [(1, 1), (2, 2), (3, 4)] 1 =
      some (-(1 / 42) : ℝ) := by
    unfold spec_autocorrelation
    have hss : ssq (tempValues [(1, 1), (2, 2), (3, 4)]) = 14 / 3 := by
      norm_num [ssq, listMean, tempValues, List.sum_cons]
    rw [if_neg (by rw [hss]; norm_num)]
    have hm : listMean (tempValues [(1, 1), (2, 2), (3, 4)]) = 7 / 3 := by
      norm_num [listMean, tempValues, List.sum_cons]
    have hnum : ((List.range ((tempValues [(1, 1), (2, 2), (3, 4)]).length - 1)).map
        fun i => ((tempValues [(1, 1), (2, 2), (3, 4)]).getD i 0 -
            listMean (tempValues [(1, 1), (2, 2), (3, 4)])) *
          ((tempValues [(1, 1), (2, 2), (3, 4)]).getD (i + 1) 0 -
            listMean (tempValues [(1, 1), (2, 2), (3, 4)]))).sum = -(1 / 9) := by
      rw [hm]
      norm_num [tempValues, List.range_succ, List.sum_cons]
    rw [hnum, hss]
    congr 1
    push_cast
    norm_num
  rw [hcode, hspec]
  intro heq
  have hinj : (1 : ℝ) = -(1 / 42) := Option.some.inj heq
  norm_num at hinj

/-- C8: `autocorr(0)` of a series with at least two rows and two distinct
values is exactly `1`; on a constant-valued series `autocorr` returns
missing (`NaN`) for every lag instead of raising or returning an arbitrary
number. -/
theorem autocorrelation_lag_zero (t : WTable) :
    (2 ≤ t.length → (∃ a ∈ tempValues t, ∃ b ∈ tempValues t, a ≠ b) →
      autocorrelation t 0 = some 1) ∧
    ((∃ c, ∀ x ∈ tempValues t, x = c) → ∀ lag : ℤ, autocorrelation t lag = none) := by
  constructor
  · rintro h2 ⟨a, ha, b, hb, hab⟩
    have h0 : ((0 : ℕ) : ℤ) = (0 : ℤ) := rfl
    have hov := autocorrelation_eq_overlap_pearson t 0
    rw [h0] at hov
    rw [hov, List.drop_zero, Nat.sub_zero, List.take_length]
    exact pearson_self _ (ssq_ne_zero_of_two_ne _ a b ha hb hab)
  · rintro ⟨c, hc⟩ lag
    exact constant_series_autocorrelation t c hc lag

/-- Witness for C8: the two-row series `[1, 2]` is non-constant and its
`autocorr(0)` is `1`; the constant series `[3, 3]` gives `NaN` at lag `1`. -/
theorem autocorrelation_lag_zero_witness :
    2 ≤ ([((0 : ℕ), (1 : ℚ)), (1, 2)] : WTable).length ∧
    autocorrelation [((0 : ℕ), (1 : ℚ)), (1, 2)] 0 = some 1 ∧
    autocorrelation [((0 : ℕ), (3 : ℚ)), (1, 3)] 1 = none :=
  ⟨by decide,
   (autocorrelation_lag_zero [((0 : ℕ), (1 : ℚ)), (1, 2)]).1 (by decide)
     ⟨1, by simp [tempValues], 2, by simp [tempValues], by norm_num⟩,
   (autocorrelation_lag_zero [((0 : ℕ), (3 : ℚ)), (1, 3)]).2
     ⟨3, by simp [tempValues]⟩ 1⟩

/-! ### The aggregation claim -/

/-- C1: on a date-indexed input table, `process_data` succeeds and returns
a table with the same index and row count whose columns are exactly the six
of `ProcessResult`: temperature is the input column, moving_average is
`moving_average(window=7)`, differential is `differential()`, the
autocorrelation column's value at row position `i` is `autocorrelation(lag=i)`
for every `i < n`, and maxima/minima are the `find_extremes` series
re-aligned to the full index with missing values at non-extremum rows. -/
theorem process_data_spec (t : WTable) (h : (tsIndex t).Nodup) :
    ∃ r : ProcessResult, process_data t = .ok r ∧
      r.index = tsIndex t ∧
      r.temperature = tempValues t ∧
      moving_average t 7 = .ok r.moving_average ∧
      differentialM t = .ok r.differential ∧
      (∀ i < t.length, r.autocorrelation.getD i none = autocorrelation t (i : ℤ)) ∧
      r.maxima = realign (tsIndex t) (find_extremes t).1 ∧
      r.minima = realign (tsIndex t) (find_extremes t).2 ∧
      r.index.length = t.length ∧
      r.temperature.length = t.length ∧
      r.moving_average.length = t.length ∧
      r.differential.length = t.length ∧
      r.autocorrelation.length = t.length ∧
      r.maxima.length = t.length ∧
      r.minima.length = t.length := by
  have hma : moving_average t 7 = .ok (rollingMean 7 (tempValues t)) := by
    unfold moving_average
    rw [if_neg (by omega)]
    rfl
  have hp : process_data t = .ok
      { index := tsIndex t
        temperature := tempValues t
        moving_average := rollingMean 7 (tempValues t)
        differential := diffValues (tempValues t)
        autocorrelation := (List.range t.length).map fun i : ℕ => autocorrelation t (i : ℤ)
        maxima := realign (tsIndex t) (find_extremes t).1
        minima := realign (tsIndex t) (find_extremes t).2 } := by
    unfold process_data
    rw [hma]
  refine ⟨_, hp, rfl, rfl, hma, rfl, ?_, rfl, rfl, ?_, ?_, ?_, ?_, ?_, ?_, ?_⟩
  · intro i hi
    have hlen : i < ((List.range t.length).map
        fun j : ℕ => autocorrelation t (j : ℤ)).length := by
      simp only [List.length_map, List.length_range]
      exact hi
    rw [List.getD_eq_getElem _ _ hlen, List.getElem_map, List.getElem_range]
  · simp [tsIndex]
  · simp [tempValues]
  · simp only [rollingMean, List.length_map, List.length_range, tempValues]
  · simp only [diffValues, List.length_map, List.length_range, tempValues]
  · simp only [List.length_map, List.length_range]
  · simp only [realign, List.length_map, tsIndex]
  · simp only [realign, List.length_map, tsIndex]

/-- Witness for C1 at the two-row table `[(0, 1), (1, 2)]`, whose date
index is duplicate-free. -/
theorem process_data_spec_witness :
    (tsIndex [((0 : ℕ), (1 : ℚ)), (1, 2)]).Nodup ∧
    (∃ r : ProcessResult, process_data [((0 : ℕ), (1 : ℚ)), (1, 2)] = .ok r ∧
      r.index = tsIndex [((0 : ℕ), (1 : ℚ)), (1, 2)] ∧
      r.temperature = tempValues [((0 : ℕ), (1 : ℚ)), (1, 2)] ∧
      moving_average [((0 : ℕ), (1 : ℚ)), (1, 2)] 7 = .ok r.moving_average ∧
      differentialM [((0 : ℕ), (1 : ℚ)), (1, 2)] = .ok r.differential ∧
      (∀ i < ([((0 : ℕ), (1 : ℚ)), (1, 2)] : WTable).length,
        r.autocorrelation.getD i none = autocorrelation [((0 : ℕ), (1 : ℚ)), (1, 2)] (i : ℤ)) ∧
      r.maxima = realign (tsIndex [((0 : ℕ), (1 : ℚ)), (1, 2)])
        (find_extremes [((0 : ℕ), (1 : ℚ)), (1, 2)]).1 ∧
      r.minima = realign (tsIndex [((0 : ℕ), (1 : ℚ)), (1, 2)])
        (find_extremes [((0 : ℕ), (1 : ℚ)), (1, 2)]).2 ∧
      r.index.length = 2 ∧
      r.temperature.length = 2 ∧
      r.moving_average.length = 2 ∧
      r.differential.length = 2 ∧
      r.autocorrelation.length = 2 ∧
      r.maxima.length = 2 ∧
      r.minima.length = 2) :=
  ⟨by decide, process_data_spec [((0 : ℕ), (1 : ℚ)), (1, 2)] (by decide)⟩

end Weather
